import Mathlib

/-!
Verification development for the wordle-stats-bot repository: a shallow
embedding of the message-parsing and persistence pipeline
(`src/wordle_discord_bot/utils/parsing.py`), of the persisted data model
(`src/wordle_discord_bot/database.py`), and of the leaderboard scoring
function (`src/wordle_discord_bot/cogs/wordle_cog.py`), with theorems
settling the specification's claims about them.

Strings are modelled as `List Char`; the guild roster (Discord
`get_member` / `fetch_member` plus the `nick or global_name or name`
chain) is abstracted as a function `Nat → Option String`; Python regex
matching for the three fixed patterns of parsing.py is implemented
directly with Python's leftmost-then-greedy semantics.  `\s` and
`str.strip` whitespace and `\d` digits are modelled over their ASCII
ranges.
-/

/-- Python `\s` / `str.strip()` whitespace (ASCII range). -/
def isPySpace (c : Char) : Bool :=
  c = ' ' || c = '\t' || c = '\n' || c = '\r' || c = '\x0b' || c = '\x0c'

/-- Value of an ASCII digit run, as Python `int()` reads the captured digits. -/
def digitsVal (ds : List Char) : Nat :=
  ds.foldl (fun a c => 10 * a + (c.toNat - 48)) 0

/-- Strip a literal prefix; `none` when the text does not start with it. -/
def dropLit : List Char → List Char → Option (List Char)
  | [], l => some l
  | _ :: _, [] => none
  | c :: cs, d :: ds => if c = d then dropLit cs ds else none

/-- One tentative result of parsing (parsing.py `WordleResult`, lines 15-20). -/
structure WordleResult where
  user_id : Option Nat
  username_at_time : Option String
  guesses : Option Nat
  is_crown : Bool
deriving DecidableEq, Repr

/-- parsing.py `ParsedWordleMessage` (lines 23-26). -/
structure ParsedWordleMessage where
  streak_days : Nat
  results : List WordleResult
deriving DecidableEq, Repr

/-- Match the announcement lead-in pattern
`\*\*Your group is on a (\d+) day streak!\*\* 🔥+ Here are yesterday's results:`
(parsing.py line 32) at the start of `l`, returning the captured streak count.
`(\d+)` and `🔥+` are greedy; each is followed by a character no run element
can equal, so the maximal run is the only possible match. -/
def streakAt (l : List Char) : Option Nat := do
  let r1 ← dropLit ("**Your group is on a ".data) l
  let ds := r1.takeWhile Char.isDigit
  let r2 := r1.dropWhile Char.isDigit
  let r3 ← dropLit (" day streak!** ".data) r2
  let r4 := r3.dropWhile (fun c => c = '🔥')
  let _ ← dropLit (" Here are yesterday's results:".data) r4
  if ds.isEmpty || (r3.takeWhile (fun c => c = '🔥')).isEmpty then none
  else pure (digitsVal ds)

/-- `re.search` of the lead-in pattern: leftmost occurrence anywhere. -/
def searchStreak : List Char → Option Nat
  | [] => none
  | c :: rest =>
    match streakAt (c :: rest) with
    | some n => some n
    | none => searchStreak rest

/-- The `\s*(.+)` tail of the score-line pattern, applied to the text after
the colon, with Python's backtracking: `\s*` is greedy, and `.+` must then
match at least one non-newline character; if the whole text is whitespace,
`\s*` backtracks until `.+` can start on the last non-newline character. -/
def matchTail (t : List Char) : Option (List Char) :=
  match t.dropWhile isPySpace with
  | c :: rest => some ((c :: rest).takeWhile (fun d => d ≠ '\n'))
  | [] =>
    match t.reverse.dropWhile (fun d => d = '\n') with
    | c :: _ => some [c]
    | [] => none

/-- Try the score-line pattern `(\d|X)/6:\s*(.+)` (parsing.py line 46) at the
start of `l`: the captured groups are the attempt count (`none` for `X`, as
`guesses = None if score_str == "X" else int(score_str)`, line 49) and the
attribution text. -/
def scoreAt : List Char → Option (Option Nat × List Char)
  | c :: '/' :: '6' :: ':' :: t =>
    if c.isDigit || c = 'X' then
      (matchTail t).map
        (fun ms => (if c = 'X' then none else some (c.toNat - 48), ms))
    else none
  | _ => none

/-- `re.search` of the score-line pattern on one line: leftmost match. -/
def searchScore : List Char → Option (Option Nat × List Char)
  | [] => none
  | c :: rest =>
    match scoreAt (c :: rest) with
    | some r => some r
    | none => searchScore rest

/-- The scanning steps of `findMentions`, structurally recursive on a fuel
bound; every step consumes at least one character of the text, so a fuel of
the text's length is exact and the zero-fuel row is only ever reached on the
empty text (where it agrees with the scan). -/
def findMentionsF : Nat → List Char → List Nat
  | 0, _ => []
  | fuel + 1, l =>
    match l with
    | [] => []
    | '<' :: '@' :: rest =>
      match rest.dropWhile Char.isDigit with
      | '>' :: rest2 =>
        if (rest.takeWhile Char.isDigit).isEmpty then
          findMentionsF fuel ('@' :: rest)
        else digitsVal (rest.takeWhile Char.isDigit) :: findMentionsF fuel rest2
      | _ => findMentionsF fuel ('@' :: rest)
    | _ :: rest => findMentionsF fuel rest

/-- `re.findall(r"<@(\d+)>", s)` (parsing.py line 51): the hard mention ids,
left to right, non-overlapping; on a failed partial match the scan resumes one
character further on. -/
def findMentions (l : List Char) : List Nat := findMentionsF l.length l

/-- The `[^\s@]` character class of the fallback-name pattern. -/
def nameClass1 (c : Char) : Bool := !isPySpace c && c ≠ '@'

/-- The `[^\s@@<]` character class of the fallback-name pattern. -/
def nameClass2 (c : Char) : Bool := !isPySpace c && c ≠ '@' && c ≠ '<'

/-- The iterations of `nameTail` on a fuel bound (each one consumes at least
two characters). -/
def nameTailF : Nat → List Char → List Char × List Char
  | 0, l => ([], l)
  | fuel + 1, l =>
    match l with
    | ' ' :: c :: rest =>
      if nameClass2 c then
        let nt := nameTailF fuel (rest.dropWhile nameClass2)
        (' ' :: (c :: rest.takeWhile nameClass2) ++ nt.1, nt.2)
      else ([], ' ' :: c :: rest)
    | l => ([], l)

/-- The `(?: [^\s@@<]+)*` tail of the fallback-name pattern: greedily consume
a literal space plus a nonempty run of allowed characters, as many times as
possible; returns (captured continuation, rest of the text). -/
def nameTail (l : List Char) : List Char × List Char := nameTailF l.length l

/-- The scanning steps of `findNames` on a fuel bound (each one consumes at
least one character). -/
def findNamesF : Nat → Option Char → List Char → List (List Char)
  | 0, _, _ => []
  | fuel + 1, prev, l =>
    match l with
    | [] => []
    | '@' :: rest =>
      if prev = some '<' then findNamesF fuel (some '@') rest
      else if (rest.takeWhile nameClass1).isEmpty then
        findNamesF fuel (some '@') rest
      else
        let r1 := rest.takeWhile nameClass1
        let nt := nameTail (rest.dropWhile nameClass1)
        (r1 ++ nt.1) :: findNamesF fuel (some ((r1 ++ nt.1).getLastD ' ')) nt.2
    | c :: rest => findNamesF fuel (some c) rest

/-- `re.findall(r"(?<!<)@([^\s@]+(?: [^\s@@<]+)*)", s)` (parsing.py line 77):
fallback display names.  `prev` is the character just before the current
position (for the `(?<!<)` negative lookbehind); after a successful match the
scan resumes at the match end, so `prev` becomes the match's last character. -/
def findNames (prev : Option Char) (l : List Char) : List (List Char) :=
  findNamesF l.length prev l

/-- One body line of the announcement (parsing.py lines 41-89): the results it
contributes.  `g` abstracts the guild roster: member id to resolved display
name (`get_member` then `fetch_member`, then `nick or global_name or name`;
`none` when the member no longer exists, so `username_at_time` is `None`).
For each hard mention id, then for each fallback name, one result sharing the
line's attempt count and crown flag (`"👑" in line`). -/
def lineResults (g : Nat → Option String) (line : List Char) : List WordleResult :=
  match searchScore line with
  | none => []
  | some (guesses, mentions_str) =>
    (findMentions mentions_str).map
      (fun user_id =>
        ⟨some user_id, g user_id, guesses, line.contains '👑'⟩)
    ++ (findNames none mentions_str).map
      (fun user_name =>
        ⟨none, some (String.mk user_name), guesses, line.contains '👑'⟩)

/-- Python `content.split("\n")`. -/
def splitNl : List Char → List (List Char)
  | [] => [[]]
  | '\n' :: rest => [] :: splitNl rest
  | c :: rest =>
    match splitNl rest with
    | l :: ls => (c :: l) :: ls
    | [] => [[c]]

/-- Python `str.strip()` (ASCII whitespace). -/
def pyStrip (l : List Char) : List Char :=
  ((l.dropWhile isPySpace).reverse.dropWhile isPySpace).reverse

/-- parsing.py `parse_wordle_message` (lines 29-94): `none` when the lead-in
is absent, otherwise the per-line results of the stripped lines (a blank line
is skipped by the source's `continue`; it contributes no result here either,
since the score pattern cannot match an empty line); `none` again when no line
yielded a result. -/
def parse_wordle_message (g : Nat → Option String) (content : String) :
    Option ParsedWordleMessage :=
  match searchStreak content.data with
  | none => none
  | some streak_days =>
    let results := (splitNl content.data).flatMap (fun l => lineResults g (pyStrip l))
    if results.isEmpty then none else some ⟨streak_days, results⟩

/-! ## The persisted data model (database.py)

`guild_user_stats` (lines 30-44) and `wordle_play` (lines 47-76).  The
`wordle_play` table's columns are exactly: `id` (autoincrement primary key),
`guild_id`, `discord_user_id` (NOT nullable), `stats_discord_message_id`,
`guesses` (nullable), `played_at`.  It defines **no**
`discord_user_name_at_time` column, although parsing.py refers to one; the
`created_at` / `updated_at` server-default timestamps of `guild_user_stats`
are bookkeeping not consulted by any claim and are omitted. -/

/-- One `guild_user_stats` row (database.py lines 30-44). -/
structure GuildUserStatsRow where
  guild_id : Nat
  discord_user_id : Nat
deriving DecidableEq, Repr

/-- One `wordle_play` row (database.py lines 47-76).  `played_at` is modelled
as an integer timestamp.  There is no display-name column. -/
structure WordlePlayRow where
  id : Nat
  guild_id : Nat
  discord_user_id : Nat
  stats_discord_message_id : Nat
  guesses : Option Nat
  played_at : Int
deriving DecidableEq, Repr

/-- The database state: the two tables. -/
structure Db where
  users : List GuildUserStatsRow
  plays : List WordlePlayRow
deriving DecidableEq, Repr

/-- The Python exceptions save_results_to_db can raise from the two code
paths that reference the undefined `WordlePlay.discord_user_name_at_time`:
an `AttributeError` when the fallback-name query filter is built
(parsing.py line 122), and a `TypeError` when the `WordlePlay(...)`
constructor is passed the unknown keyword (parsing.py line 177). -/
inductive DbError where
  | attributeError (attr : String)
  | typeError (kwarg : String)
deriving DecidableEq, Repr

/-- Python truthiness of an optional integer (`if user_id:`): `None` and `0`
are falsy. -/
def optTruthy : Option Nat → Bool
  | none => false
  | some n => n != 0

/-- Python truthiness of an optional string: `None` and `""` are falsy. -/
def strTruthy : Option String → Bool
  | none => false
  | some s => s != ""

/-- `if not user_id and result.username_at_time:` (parsing.py line 110): the
result has no truthy player key but does have a truthy fallback display name,
so the fallback history search would be attempted. -/
def needsNameSearch (r : WordleResult) : Bool :=
  !optTruthy r.user_id && strTruthy r.username_at_time

/-- The `existing_user` query filter of parsing.py lines 144-151. -/
def userExists (guild_id user_id : Nat) (users : List GuildUserStatsRow) : Bool :=
  (users.find?
    (fun u => u.guild_id == guild_id && u.discord_user_id == user_id)).isSome

/-- The `existing_play` query filter of parsing.py lines 162-170. -/
def playExists (guild_id user_id message_id : Nat)
    (plays : List WordlePlayRow) : Bool :=
  (plays.find?
    (fun p => p.guild_id == guild_id && p.discord_user_id == user_id
      && p.stats_discord_message_id == message_id)).isSome

/-- parsing.py lines 142-159: `if not existing_user ...` insert a
`guild_user_stats` row and commit it at once (line 159). -/
def ensureUser (guild_id user_id : Nat) (db : Db) : Db :=
  if userExists guild_id user_id db.users then db
  else { db with users := db.users ++ [⟨guild_id, user_id⟩] }

/-- parsing.py lines 161-183: look up the play by (guild, user, message); if
absent, the `WordlePlay(..., discord_user_name_at_time=...)` constructor
(lines 173-180) raises `TypeError` for the invalid keyword before `db.add`
runs, so no play row is inserted; if present nothing happens (line 183's
commit has nothing pending). -/
def insertPlayAttempt (guild_id message_id user_id : Nat) (db : Db) :
    Db × Option DbError :=
  if playExists guild_id user_id message_id db.plays then (db, none)
  else (db, some (.typeError "discord_user_name_at_time"))

/-- The body of save_results_to_db's per-result loop (parsing.py lines
105-183), acting on the database state; returns the state after the result
and the exception raised, if any.

* Lines 110-140: when the fallback search is triggered, building the query's
  filter evaluates `WordlePlay.discord_user_name_at_time` (line 122), an
  attribute the mapped class does not define, so an `AttributeError` is
  raised before the query runs; nothing is read or written.
* Lines 142-183: `if user_id:` — ensure the `guild_user_stats` row exists,
  then attempt the play insert (see `insertPlayAttempt`).
* Otherwise (no truthy key, no truthy name) the result is skipped. -/
def processResult (guild_id message_id : Nat) (r : WordleResult) (db : Db) :
    Db × Option DbError :=
  if needsNameSearch r then
    (db, some (.attributeError "discord_user_name_at_time"))
  else if optTruthy r.user_id then
    insertPlayAttempt guild_id message_id (r.user_id.getD 0)
      (ensureUser guild_id (r.user_id.getD 0) db)
  else (db, none)

/-- The `for result in parsed_results.results` loop of save_results_to_db:
stop at the first raised exception. -/
def saveLoop (guild_id message_id : Nat) (results : List WordleResult)
    (db : Db) : Db × Option DbError :=
  match results with
  | [] => (db, none)
  | r :: rest =>
    match processResult guild_id message_id r db with
    | (db1, some e) => (db1, some e)
    | (db1, none) => saveLoop guild_id message_id rest db1

/-- parsing.py `save_results_to_db` (lines 97-191).  On an exception the
`db.rollback()` (line 187) discards pending uncommitted changes — at every
raise point nothing is pending, every earlier insert having been committed
(lines 159, 183) — and the exception is re-raised.  The source function has
no `return` statement: a successful call returns Python `None`, modelled as
`Except.ok none` (the `Option Nat` payload is the integer count a caller
could have received).  `message_date` is only ever passed to the play
constructor that raises, so it does not influence the state. -/
def save_results_to_db (guild_id message_id : Nat) (message_date : Int)
    (parsed_results : ParsedWordleMessage) (db : Db) :
    Db × Except DbError (Option Nat) :=
  match saveLoop guild_id message_id parsed_results.results db with
  | (db1, some e) => (db1, .error e)
  | (db1, none) =>
    let _ := message_date
    (db1, .ok none)

/-! ## The backfill deep phase (parsing.py `scan_channel`, lines 249-310)

The deep phase walks backward in 7-day batches.  The channel is abstracted
to the list of per-batch outcomes, most recent batch first: `true` when the
batch contained at least one recognized announcement (a message by the
announcer that `parse_wordle_message` accepts).  Once the finite history is
exhausted every further batch is empty (`false`). -/

/-- parsing.py line 252. -/
def max_gap_days : Nat := 30

/-- parsing.py line 253. -/
def scan_batch_days : Nat := 7

/-- Number of loop iterations the deep phase performs when every remaining
batch is empty and the gap counter starts at `gap`: the loop keeps adding
`scan_batch_days` until the counter reaches `max_gap_days`. -/
def emptyBatchCount (gap : Nat) : Nat :=
  (max_gap_days - gap + scan_batch_days - 1) / scan_batch_days

/-- The deep-phase `while days_without_wordle < max_gap_days` loop (parsing.py
lines 256-305), counting the batches it processes: on an empty batch the gap
counter grows by `scan_batch_days` (line 294), on a non-empty batch it resets
to zero (line 291); past the end of the finite history every batch is empty. -/
def deepScanBatches : Nat → List Bool → Nat
  | gap, [] => emptyBatchCount gap
  | gap, f :: rest =>
    if gap < max_gap_days then
      1 + deepScanBatches (if f then 0 else gap + scan_batch_days) rest
    else 0

/-- Whether batch `n` (counted from the start of the deep phase) contains a
recognized announcement: `false` past the end of the history. -/
def flagAt (flags : List Bool) (n : Nat) : Bool := flags.getD n false

/-- The gap counter's value when batch `n` is about to be considered,
starting from `gap`: the increment/reset rule of parsing.py lines 290-297. -/
def gapSeq (gap : Nat) (flags : List Bool) : Nat → Nat
  | 0 => gap
  | n + 1 =>
    if flagAt flags n then 0 else gapSeq gap flags n + scan_batch_days

/-- wordle_cog.py `leaderboard_score` (lines 251-260): smoothed effective
average minus win-rate bonus; lower is better.  `avg_guesses` and
`success_rate` are the player's average attempts and win-rate percentage,
`successful_plays` the number of wins. -/
def leaderboard_score (avg_guesses success_rate : ℚ)
    (successful_plays : ℕ) : ℚ :=
  let smoothing : ℚ := 5
  let effective_avg :=
    (avg_guesses * successful_plays + 6 * smoothing) / (successful_plays + smoothing)
  effective_avg - success_rate / 100

/-! ## Spec-side definitions

Declarative restatements of the specification's wording, used to compare the
source-derived functions above against what the spec claims. -/

/-- A result for which the per-result loop would attempt to insert a play row
that is not yet present: a truthy player key whose (guild, user, message)
triple has no existing row. -/
def needsInsert (guild_id message_id : Nat) (r : WordleResult)
    (plays : List WordlePlayRow) : Bool :=
  optTruthy r.user_id && !playExists guild_id (r.user_id.getD 0) message_id plays

/-- Declarative condition under which the `\s*(.+)` tail of the score-line
pattern matches a text `t`: some character of `t` preceded only by whitespace
is not a newline (`\s*` matches the prefix, `.+` starts on that character). -/
def specTailCond (t : List Char) : Prop :=
  ∃ u d v, t = u ++ d :: v ∧ (∀ x ∈ u, isPySpace x = true) ∧ d ≠ '\n'

/-- Declarative reading of the spec sentence "a body line is matched against
a score-line pattern `<token>/6: <attribution text>`": at some position of the
line stands an admissible score token, then `/6:`, then a matchable tail. -/
def specScoreLine (tok : Char → Bool) (line : List Char) : Prop :=
  ∃ n c t, line.drop n = c :: '/' :: '6' :: ':' :: t ∧ tok c = true ∧ specTailCond t

/-- The score-token class the source's regex `(\d|X)` accepts: any decimal
digit, or the failure marker `X`. -/
def tokSrc (c : Char) : Bool := c.isDigit || c = 'X'

/-- The score-token class the spec claims: a digit 1 through 6, or the
failure marker `X`. -/
def tokSpec (c : Char) : Bool := ('1' ≤ c && c ≤ '6') || c = 'X'

/-- The end-to-end scenario content of the spec's testable property. -/
def scenarioContent : String :=
  "**Your group is on a 5 day streak!** 🔥 Here are yesterday's results:\n3/6: <@111>\n👑 2/6: <@222> <@333>\nX/6: @Some User"

/-! ## Theorems -/

theorem ensureUser_plays (guild_id user_id : Nat) (db : Db) :
    (ensureUser guild_id user_id db).plays = db.plays := by
  unfold ensureUser
  split <;> rfl

theorem insertPlayAttempt_plays (guild_id message_id user_id : Nat) (db : Db) :
    (insertPlayAttempt guild_id message_id user_id db).1.plays = db.plays := by
  unfold insertPlayAttempt
  split <;> rfl

theorem processResult_plays (guild_id message_id : Nat) (r : WordleResult)
    (db : Db) : (processResult guild_id message_id r db).1.plays = db.plays := by
  unfold processResult
  split_ifs with h1 h2
  · rfl
  · rw [insertPlayAttempt_plays, ensureUser_plays]
  · rfl

theorem saveLoop_plays (guild_id message_id : Nat) (rs : List WordleResult) :
    ∀ db : Db, (saveLoop guild_id message_id rs db).1.plays = db.plays := by
  induction rs with
  | nil => intro db; rfl
  | cons r rest ih =>
    intro db
    have hp := processResult_plays guild_id message_id r db
    rcases hpr : processResult guild_id message_id r db with ⟨db1, e⟩
    rw [hpr] at hp
    cases e with
    | none =>
      have hstep : saveLoop guild_id message_id (r :: rest) db
          = saveLoop guild_id message_id rest db1 := by
        conv_lhs => unfold saveLoop
        rw [hpr]
      rw [hstep]
      exact (ih db1).trans hp
    | some e =>
      have hstep : saveLoop guild_id message_id (r :: rest) db = (db1, some e) := by
        conv_lhs => unfold saveLoop
        rw [hpr]
      rw [hstep]
      exact hp

theorem save_results_plays (guild_id message_id : Nat) (d : Int)
    (pr : ParsedWordleMessage) (db : Db) :
    (save_results_to_db guild_id message_id d pr db).1.plays = db.plays := by
  unfold save_results_to_db
  have h := saveLoop_plays guild_id message_id pr.results db
  rcases hs : saveLoop guild_id message_id pr.results db with ⟨db1, e⟩
  rw [hs] at h
  cases e <;> exact h

/-- A result the per-result loop handles without an exception triggers
neither the fallback search nor a new-play insert, and leaves the play table
unchanged. -/
theorem processResult_none (guild_id message_id : Nat) (r : WordleResult)
    (db db1 : Db) (h : processResult guild_id message_id r db = (db1, none)) :
    needsNameSearch r = false ∧
      needsInsert guild_id message_id r db.plays = false ∧ db1.plays = db.plays := by
  unfold processResult at h
  split_ifs at h with h1 h2
  · injection h with hfst hsnd
    exact absurd hsnd (by simp)
  · unfold insertPlayAttempt at h
    split_ifs at h with h3
    · injection h with hfst hsnd
      rw [ensureUser_plays] at h3
      refine ⟨by simpa using h1, ?_, ?_⟩
      · unfold needsInsert
        rw [h3]
        simp
      · rw [← hfst, ensureUser_plays]
    · injection h with hfst hsnd
      exact absurd hsnd (by simp)
  · injection h with hfst hsnd
    refine ⟨by simpa using h1, ?_, by rw [← hfst]⟩
    unfold needsInsert
    rw [show optTruthy r.user_id = false from by simpa using h2]
    rfl

theorem saveLoop_err (guild_id message_id : Nat) (rs : List WordleResult) :
    ∀ db : Db,
      (rs.any fun r =>
        needsNameSearch r || needsInsert guild_id message_id r db.plays) = true →
      (saveLoop guild_id message_id rs db).2.isSome = true := by
  induction rs with
  | nil => intro db h; simp at h
  | cons r rest ih =>
    intro db h
    unfold saveLoop
    rcases hpr : processResult guild_id message_id r db with ⟨db1, e⟩
    cases e with
    | some e => simp
    | none =>
      obtain ⟨hn, hi, hplays⟩ := processResult_none guild_id message_id r db db1 hpr
      simp only [List.any_cons, hn, hi, Bool.false_or] at h
      rw [← hplays] at h
      exact ih db1 h

/-- C4.  For every call of save_results_to_db that processes a result needing
either the fallback display-name search (no truthy player key but a truthy
display name) or the insertion of a not-yet-present play for a resolved
player key, the call raises an exception (both code paths reference the
`discord_user_name_at_time` attribute that the persisted `wordle_play` model
does not define) and the rollback leaves only the already-committed user
rows; consequently no call of save_results_to_db ever inserts a play row:
the play table after any call equals the play table before it. -/
theorem save_results_always_error_never_inserts (guild_id message_id : Nat)
    (d : Int) (pr : ParsedWordleMessage) (db : Db) :
    (save_results_to_db guild_id message_id d pr db).1.plays = db.plays ∧
      ((pr.results.any fun r =>
          needsNameSearch r || needsInsert guild_id message_id r db.plays) = true →
        ∃ e, (save_results_to_db guild_id message_id d pr db).2 =
          Except.error e) := by
  refine ⟨save_results_plays guild_id message_id d pr db, fun h => ?_⟩
  have hs := saveLoop_err guild_id message_id pr.results db h
  unfold save_results_to_db
  rcases hl : saveLoop guild_id message_id pr.results db with ⟨db1, e⟩
  rw [hl] at hs
  cases e with
  | none => simp at hs
  | some e => exact ⟨e, rfl⟩

/-- Witness for C4: a resolved result (player key 7) whose play is not yet
present, against an empty database. -/
theorem save_results_always_error_witness :
    (save_results_to_db 5 6 0 ⟨1, [⟨some 7, none, some 3, false⟩]⟩
        ⟨[], []⟩).1.plays = (⟨[], []⟩ : Db).plays ∧
      ∃ e, (save_results_to_db 5 6 0 ⟨1, [⟨some 7, none, some 3, false⟩]⟩
        ⟨[], []⟩).2 = Except.error e :=
  ⟨(save_results_always_error_never_inserts 5 6 0
      ⟨1, [⟨some 7, none, some 3, false⟩]⟩ ⟨[], []⟩).1,
    (save_results_always_error_never_inserts 5 6 0
      ⟨1, [⟨some 7, none, some 3, false⟩]⟩ ⟨[], []⟩).2 (by decide)⟩

/-- C2.  Committing the same (group, message, results) twice leaves exactly
the same set of play rows as committing it once: the repeated call inserts no
play row (indeed no call ever does, since every new-play insert raises before
`db.add`), so replays of the same announcement are a no-op on the play
table. -/
theorem save_results_plays_idempotent (guild_id message_id : Nat) (d : Int)
    (pr : ParsedWordleMessage) (db : Db) :
    (save_results_to_db guild_id message_id d pr
        (save_results_to_db guild_id message_id d pr db).1).1.plays =
      (save_results_to_db guild_id message_id d pr db).1.plays := by
  rw [save_results_plays, save_results_plays]

/-- C5 counterexample.  save_results_to_db does not return a count: the
source function has no return statement, so a successful call returns Python
`None`.  On the empty result list the call succeeds and the claim would
require the count `0` to be returned; the actual return value is `None`. -/
theorem save_returns_none_counterexample :
    (save_results_to_db 3 4 0 ⟨1, []⟩ ⟨[], []⟩).2 = Except.ok none ∧
      (save_results_to_db 3 4 0 ⟨1, []⟩ ⟨[], []⟩).2 ≠ Except.ok (some 0) := by
  constructor
  · rfl
  · intro h
    rw [show (save_results_to_db 3 4 0 ⟨1, []⟩ ⟨[], []⟩).2 = Except.ok none
      from rfl] at h
    simp at h

/-- C5 amended.  save_results_to_db never returns an integer count: every
call either raises or returns `None` (the loop's outcome is logged, not
returned). -/
theorem save_never_returns_count (guild_id message_id : Nat) (d : Int)
    (pr : ParsedWordleMessage) (db : Db) (n : Nat) :
    (save_results_to_db guild_id message_id d pr db).2 ≠ Except.ok (some n) := by
  unfold save_results_to_db
  rcases hl : saveLoop guild_id message_id pr.results db with ⟨db1, e⟩
  cases e <;> simp

/-- C1 counterexample.  A fallback-name-only result ("Some User", no hard
reference) committed against an empty database — so no prior play in the
group can match — is not persisted at all, rather than persisted with a null
player key: the call raises `AttributeError` while building the fallback
query (the play model defines no `discord_user_name_at_time` column) and the
database is left unchanged, with its play table empty. -/
theorem fallback_unmatched_not_persisted_counterexample :
    save_results_to_db 1 2 0 ⟨5, [⟨none, some "Some User", none, false⟩]⟩ ⟨[], []⟩
        = (⟨[], []⟩, Except.error (.attributeError "discord_user_name_at_time")) ∧
      (⟨[], []⟩ : Db).plays = [] :=
  ⟨rfl, rfl⟩

/-- C1 amended.  When commit processes a tentative result that carries only a
fallback display name (no truthy player key, a truthy name), it raises an
`AttributeError` — whether or not a matching prior play exists, since the
fallback search itself references the undefined display-name column — and
persists nothing: the state is returned unchanged.  No play row with a null
player key is ever created (the schema's `discord_user_id` is non-nullable),
so player-indexed statistics are unaffected by such results. -/
theorem fallback_result_raises_and_persists_nothing (guild_id message_id : Nat)
    (d : Int) (streak : Nat) (r : WordleResult) (rest : List WordleResult)
    (db : Db) (h1 : optTruthy r.user_id = false)
    (h2 : strTruthy r.username_at_time = true) :
    save_results_to_db guild_id message_id d ⟨streak, r :: rest⟩ db
      = (db, Except.error (.attributeError "discord_user_name_at_time")) := by
  have hn : needsNameSearch r = true := by
    unfold needsNameSearch
    rw [h1, h2]
    rfl
  have hp : processResult guild_id message_id r db
      = (db, some (.attributeError "discord_user_name_at_time")) := by
    unfold processResult
    rw [if_pos hn]
  have hl : saveLoop guild_id message_id (r :: rest) db
      = (db, some (.attributeError "discord_user_name_at_time")) := by
    conv_lhs => unfold saveLoop
    rw [hp]
  unfold save_results_to_db
  rw [hl]

/-- Witness for the C1 amended theorem: a fallback-only result named "A". -/
theorem fallback_result_raises_witness :
    save_results_to_db 7 8 0 ⟨2, [⟨none, some "A", none, false⟩]⟩ ⟨[], []⟩
      = (⟨[], []⟩, Except.error (.attributeError "discord_user_name_at_time")) :=
  fallback_result_raises_and_persists_nothing 7 8 0 2
    ⟨none, some "A", none, false⟩ [] ⟨[], []⟩ rfl rfl

/-- C3 (code bug).  The persisted play model defines no
display-name-at-time column (`wordle_play`'s columns are id, guild_id,
discord_user_id, stats_discord_message_id, guesses, played_at), yet the
insert path passes `discord_user_name_at_time` to the constructor: at the
first resolvable new play the call raises `TypeError` after having committed
the `guild_user_stats` parent row, and no play row — with or without a stored
display name — is ever persisted. -/
theorem play_insert_raises_typeError :
    save_results_to_db 1 9 0 ⟨3, [⟨some 7, some "Bob", some 4, false⟩]⟩ ⟨[], []⟩
      = (⟨[⟨1, 7⟩], []⟩, Except.error (.typeError "discord_user_name_at_time")) :=
  rfl

/-- C6 (code bug).  A fallback-name-only result in a group that does have a
prior play with a non-null player key (user 42) does not adopt that player
key: building the fallback search's filter references
`WordlePlay.discord_user_name_at_time`, which the play model does not define,
so the call raises `AttributeError` before the search runs — and the premise
"a prior record whose stored display name equals the fallback name" is not
even representable, the table storing no display name at all. -/
theorem fallback_match_raises_attributeError :
    save_results_to_db 1 101 0 ⟨2, [⟨none, some "Some User", none, false⟩]⟩
        ⟨[⟨1, 42⟩], [⟨10, 1, 42, 100, some 3, 0⟩]⟩
      = (⟨[⟨1, 42⟩], [⟨10, 1, 42, 100, some 3, 0⟩]⟩,
          Except.error (.attributeError "discord_user_name_at_time")) :=
  rfl

/-- C10.  For all non-negative inputs, the leaderboard score is monotonically
non-increasing in the win rate when the average and the win count are held
fixed, and monotonically non-decreasing in the average attempts when the win
rate and the win count are held fixed (lower score is better). -/
theorem leaderboard_score_monotone (wins : ℕ) (avg avg' win_rate win_rate' : ℚ)
    (ha : 0 ≤ avg) (ha' : 0 ≤ avg') (hw : 0 ≤ win_rate) (hw' : 0 ≤ win_rate') :
    (win_rate ≤ win_rate' →
      leaderboard_score avg win_rate' wins ≤ leaderboard_score avg win_rate wins) ∧
    (avg ≤ avg' →
      leaderboard_score avg win_rate wins ≤ leaderboard_score avg' win_rate wins) := by
  constructor
  · intro hle
    simp only [leaderboard_score]
    have h100 : win_rate / 100 ≤ win_rate' / 100 := by
      apply div_le_div_of_nonneg_right hle
      norm_num
    exact sub_le_sub_left h100 _
  · intro hle
    simp only [leaderboard_score]
    apply sub_le_sub_right
    have hpos : (0 : ℚ) < (wins : ℚ) + 5 := by positivity
    apply div_le_div_of_nonneg_right _ (le_of_lt hpos)
    have : avg * (wins : ℚ) ≤ avg' * (wins : ℚ) :=
      mul_le_mul_of_nonneg_right hle (by positivity)
    linarith

/-- Witness for C10 at wins = 1, averages 4 and 5, win rates 50 and 80. -/
theorem leaderboard_score_monotone_witness :
    leaderboard_score 4 80 1 ≤ leaderboard_score 4 50 1 ∧
      leaderboard_score 4 50 1 ≤ leaderboard_score 5 50 1 :=
  ⟨(leaderboard_score_monotone 1 4 5 50 80 (by decide) (by decide) (by decide)
      (by decide)).1 (by decide),
    (leaderboard_score_monotone 1 4 5 50 80 (by decide) (by decide) (by decide)
      (by decide)).2 (by decide)⟩

/-- C7.  On the end-to-end scenario content, parse yields exactly four
tentative results, for every roster `g`: hard reference 111 with 3 attempts
and no highlight; hard references 222 and 333 each with 2 attempts and the
highlight set (the crown stands on their line); and a fallback-name result
"Some User" with no reference, a null attempt count and no highlight — in
that order, under streak count 5. -/
theorem parse_end_to_end_scenario (g : Nat → Option String) :
    parse_wordle_message g scenarioContent
      = some ⟨5, [⟨some 111, g 111, some 3, false⟩,
          ⟨some 222, g 222, some 2, true⟩,
          ⟨some 333, g 333, some 2, true⟩,
          ⟨none, some "Some User", none, false⟩]⟩ :=
  rfl

theorem gapSeq_nil (g : Nat) : ∀ n, gapSeq g [] n = g + scan_batch_days * n := by
  intro n
  induction n with
  | zero => simp [gapSeq]
  | succ n' ih =>
    simp only [gapSeq, flagAt, List.getD]
    simp [ih]
    ring

theorem gapSeq_shift (g : Nat) (f : Bool) (rest : List Bool) :
    ∀ n, gapSeq g (f :: rest) (n + 1)
      = gapSeq (if f then 0 else g + scan_batch_days) rest n := by
  intro n
  induction n with
  | zero =>
    cases f <;> simp [gapSeq, flagAt]
  | succ n' ih =>
    have hf : flagAt (f :: rest) (n' + 1) = flagAt rest n' := by simp [flagAt]
    calc gapSeq g (f :: rest) (n' + 2)
        = if flagAt (f :: rest) (n' + 1) then 0
            else gapSeq g (f :: rest) (n' + 1) + scan_batch_days := rfl
      _ = if flagAt rest n' then 0
            else gapSeq (if f then 0 else g + scan_batch_days) rest n'
              + scan_batch_days := by rw [hf, ih]
      _ = gapSeq (if f then 0 else g + scan_batch_days) rest (n' + 1) := rfl

theorem emptyBatchCount_iff (g n : Nat) :
    emptyBatchCount g = n ↔
      (max_gap_days ≤ g + scan_batch_days * n ∧
        ∀ m < n, g + scan_batch_days * m < max_gap_days) := by
  unfold emptyBatchCount max_gap_days scan_batch_days
  constructor
  · intro h
    constructor
    · omega
    · intro m hm
      omega
  · rintro ⟨h1, h2⟩
    rcases n with _ | n'
    · omega
    · have h3 := h2 n' (Nat.lt_succ_self n')
      omega

theorem deepScanBatches_eq_iff : ∀ (flags : List Bool) (g n : Nat),
    deepScanBatches g flags = n ↔
      (max_gap_days ≤ gapSeq g flags n ∧
        ∀ m < n, gapSeq g flags m < max_gap_days) := by
  intro flags
  induction flags with
  | nil =>
    intro g n
    rw [show deepScanBatches g [] = emptyBatchCount g from rfl]
    simp only [gapSeq_nil]
    exact emptyBatchCount_iff g n
  | cons f rest ih =>
    intro g n
    by_cases hg : g < max_gap_days
    · rw [show deepScanBatches g (f :: rest)
          = 1 + deepScanBatches (if f then 0 else g + scan_batch_days) rest from by
        conv_lhs => unfold deepScanBatches
        rw [if_pos hg]]
      cases n with
      | zero =>
        constructor
        · intro h
          exact absurd h (by omega)
        · rintro ⟨h1, _⟩
          have hz : gapSeq g (f :: rest) 0 = g := rfl
          rw [hz] at h1
          omega
      | succ n' =>
        have hL : (1 + deepScanBatches (if f then 0 else g + scan_batch_days) rest
            = n' + 1)
            ↔ (deepScanBatches (if f then 0 else g + scan_batch_days) rest = n') := by
          omega
        rw [hL, ih (if f then 0 else g + scan_batch_days) n']
        constructor
        · rintro ⟨h1, h2⟩
          refine ⟨by rwa [gapSeq_shift], ?_⟩
          intro m hm
          cases m with
          | zero => exact hg
          | succ m' =>
            rw [gapSeq_shift]
            exact h2 m' (by omega)
        · rintro ⟨h1, h2⟩
          rw [gapSeq_shift] at h1
          refine ⟨h1, fun m hm => ?_⟩
          have h3 := h2 (m + 1) (by omega)
          rwa [gapSeq_shift] at h3
    · rw [show deepScanBatches g (f :: rest) = 0 from by
        conv_lhs => unfold deepScanBatches
        rw [if_neg hg]]
      constructor
      · rintro rfl
        exact ⟨by simpa [gapSeq] using Nat.le_of_not_lt hg, by omega⟩
      · rintro ⟨h1, h2⟩
        cases n with
        | zero => rfl
        | succ n' =>
          have h3 := h2 0 (by omega)
          have hz : gapSeq g (f :: rest) 0 = g := rfl
          rw [hz] at h3
          omega

theorem deepScanBatches_replicate_true :
    ∀ k, deepScanBatches 0 (List.replicate k true) = k + 5 := by
  intro k
  induction k with
  | zero => rfl
  | succ k' ih =>
    rw [List.replicate_succ]
    have hstep : deepScanBatches 0 (true :: List.replicate k' true)
        = 1 + deepScanBatches 0 (List.replicate k' true) := by
      conv_lhs => unfold deepScanBatches
      rw [if_pos (by unfold max_gap_days; omega)]
      rfl
    rw [hstep, ih]
    omega

/-- C9 counterexample.  scan_channel's deep phase has no configured maximum
total lookback: for every candidate cap there is a channel history whose scan
walks back more days than the cap allows — on a history of `cap + 1`
consecutive announcement-bearing batches the loop runs `cap + 6` batches of 7
days each, terminating only through the gap heuristic afterwards. -/
theorem deep_scan_no_lookback_cap_counterexample :
    ¬ ∃ cap : Nat, ∀ flags : List Bool,
        scan_batch_days * deepScanBatches 0 flags ≤ cap := by
  rintro ⟨cap, h⟩
  have h1 := h (List.replicate (cap + 1) true)
  rw [deepScanBatches_replicate_true] at h1
  unfold scan_batch_days at h1
  omega

/-- C9 amended.  In the deep phase, after each 7-day batch the gap counter is
incremented by the batch size if the batch contained zero recognized
announcements and reset to zero otherwise (`gapSeq` is exactly this rule),
and the backward walk terminates exactly when the gap counter reaches or
exceeds the maximum allowed gap of 30 days: the number of processed batches
is `n` precisely when the counter first reaches `max_gap_days` at step `n`.
There is no maximum-total-lookback bound (see the counterexample). -/
theorem deep_scan_gap_termination (flags : List Bool) (n : Nat) :
    deepScanBatches 0 flags = n ↔
      (max_gap_days ≤ gapSeq 0 flags n ∧
        ∀ m < n, gapSeq 0 flags m < max_gap_days) :=
  deepScanBatches_eq_iff flags 0 n

theorem dropWhile_eq_cons_head_false {p : Char → Bool} {t : List Char}
    {c : Char} {rest : List Char} (h : List.dropWhile p t = c :: rest) :
    p c = false := by
  induction t generalizing c rest with
  | nil => simp [List.dropWhile] at h
  | cons a t' ih =>
    rw [List.dropWhile_cons] at h
    by_cases hpa : p a = true
    · rw [if_pos hpa] at h
      exact ih h
    · rw [if_neg hpa] at h
      injection h with h1 _
      rw [← h1]
      simpa using hpa

theorem specTailCond_of_dropWhile_ne {t : List Char}
    (h : t.dropWhile isPySpace ≠ []) : specTailCond t := by
  obtain ⟨c, rest, hc⟩ := List.exists_cons_of_ne_nil h
  refine ⟨t.takeWhile isPySpace, c, rest, ?_,
    fun x hx => List.mem_takeWhile_imp hx, ?_⟩
  · conv_lhs => rw [← List.takeWhile_append_dropWhile (p := isPySpace) (l := t)]
    rw [hc]
  · have hf := dropWhile_eq_cons_head_false hc
    intro hEq
    rw [hEq] at hf
    exact absurd hf (by decide)

theorem specTailCond_of_rev {t : List Char}
    (hdw : t.dropWhile isPySpace = [])
    (hr : t.reverse.dropWhile (fun d => d = '\n') ≠ []) : specTailCond t := by
  obtain ⟨c, rest', hc⟩ := List.exists_cons_of_ne_nil hr
  have hf := dropWhile_eq_cons_head_false hc
  have hcn : c ≠ '\n' := by simpa using hf
  have hall : ∀ x ∈ t, isPySpace x = true := List.dropWhile_eq_nil_iff.mp hdw
  have hcin : c ∈ t := by
    have h1 : c ∈ List.dropWhile (fun d => decide (d = '\n')) t.reverse := by
      rw [hc]
      exact List.mem_cons_self _ _
    have h2 : c ∈ t.reverse := (List.dropWhile_sublist _).subset h1
    exact List.mem_reverse.mp h2
  obtain ⟨s, t2, hst⟩ := List.append_of_mem hcin
  exact ⟨s, c, t2, hst,
    fun x hx => hall x (by rw [hst]; exact List.mem_append_left _ hx), hcn⟩

theorem matchTail_isSome_iff (t : List Char) :
    (matchTail t).isSome = true ↔ specTailCond t := by
  constructor
  · intro h
    unfold matchTail at h
    rcases hd : t.dropWhile isPySpace with _ | ⟨c, rest⟩
    · rw [hd] at h
      rcases hr : t.reverse.dropWhile (fun d => d = '\n') with _ | ⟨c, rest'⟩
      · rw [hr] at h
        simp at h
      · exact specTailCond_of_rev hd (by rw [hr]; simp)
    · exact specTailCond_of_dropWhile_ne (by rw [hd]; simp)
  · rintro ⟨u, d, v, ht, hu, hdn⟩
    unfold matchTail
    rcases hd : t.dropWhile isPySpace with _ | ⟨c, rest⟩
    · have hall : ∀ x ∈ t, isPySpace x = true := List.dropWhile_eq_nil_iff.mp hd
      rcases hr : t.reverse.dropWhile (fun d => d = '\n') with _ | ⟨c, rest'⟩
      · exfalso
        have hall2 := List.dropWhile_eq_nil_iff.mp hr
        have hd2 : d ∈ t := by
          rw [ht]
          exact List.mem_append_right _ (List.mem_cons_self _ _)
        have h3 := hall2 d (List.mem_reverse.mpr hd2)
        simp at h3
        exact hdn h3
      · rfl
    · rfl

theorem scoreAt_isSome_iff (l : List Char) :
    (scoreAt l).isSome = true ↔
      ∃ c t, l = c :: '/' :: '6' :: ':' :: t ∧ tokSrc c = true ∧ specTailCond t := by
  constructor
  · intro h
    unfold scoreAt at h
    split at h
    next c t =>
      by_cases htok : (c.isDigit || c = 'X') = true
      · rw [if_pos htok] at h
        refine ⟨c, t, rfl, htok, ?_⟩
        rcases hmt : matchTail t with _ | ms
        · rw [hmt] at h
          simp at h
        · exact (matchTail_isSome_iff t).mp (by rw [hmt]; rfl)
      · rw [if_neg htok] at h
        simp at h
    next => simp at h
  · rintro ⟨c, t, rfl, htok, htail⟩
    unfold tokSrc at htok
    have hred : scoreAt (c :: '/' :: '6' :: ':' :: t)
        = if c.isDigit || c = 'X' then
            (matchTail t).map
              (fun ms => (if c = 'X' then none else some (c.toNat - 48), ms))
          else none := rfl
    rw [hred, if_pos htok]
    obtain ⟨ms, hms⟩ := Option.isSome_iff_exists.mp ((matchTail_isSome_iff t).mpr htail)
    rw [hms]
    rfl

theorem specScoreLine_cons (tok : Char → Bool) (x : Char) (rest : List Char) :
    specScoreLine tok (x :: rest) ↔
      (∃ c t, x :: rest = c :: '/' :: '6' :: ':' :: t ∧ tok c = true ∧ specTailCond t)
        ∨ specScoreLine tok rest := by
  constructor
  · rintro ⟨n, c, t, hdrop, htok, htail⟩
    cases n with
    | zero => exact Or.inl ⟨c, t, by simpa using hdrop, htok, htail⟩
    | succ n' => exact Or.inr ⟨n', c, t, by simpa using hdrop, htok, htail⟩
  · rintro (⟨c, t, heq, htok, htail⟩ | ⟨n, c, t, hdrop, htok, htail⟩)
    · exact ⟨0, c, t, by simpa using heq, htok, htail⟩
    · exact ⟨n + 1, c, t, by simpa using hdrop, htok, htail⟩

theorem searchScore_isSome_iff :
    ∀ line : List Char,
      (searchScore line).isSome = true ↔ specScoreLine tokSrc line := by
  intro line
  induction line with
  | nil =>
    constructor
    · intro h
      exact absurd h (by simp [searchScore])
    · rintro ⟨n, c, t, hdrop, _, _⟩
      rw [List.drop_nil] at hdrop
      exact List.noConfusion hdrop
  | cons x rest ih =>
    rw [specScoreLine_cons]
    rcases hs : scoreAt (x :: rest) with _ | r
    · have hstep : searchScore (x :: rest) = searchScore rest := by
        conv_lhs => unfold searchScore
        rw [hs]
      have hnone : ¬ ∃ c t, x :: rest = c :: '/' :: '6' :: ':' :: t
          ∧ tokSrc c = true ∧ specTailCond t := by
        intro hex
        have h2 := (scoreAt_isSome_iff (x :: rest)).mpr hex
        rw [hs] at h2
        simp at h2
      rw [hstep, ih]
      exact (or_iff_right hnone).symm
    · have hstep : searchScore (x :: rest) = some r := by
        conv_lhs => unfold searchScore
        rw [hs]
      have hsome := (scoreAt_isSome_iff (x :: rest)).mp (by rw [hs]; rfl)
      rw [hstep]
      simp only [Option.isSome_some]
      constructor
      · intro _
        exact Or.inl hsome
      · intro _
        trivial

theorem lineResults_of_searchScore_none (g : Nat → Option String)
    (line : List Char) (h : searchScore line = none) : lineResults g line = [] := by
  unfold lineResults
  rw [h]

theorem lineResults_guesses (g : Nat → Option String) (line : List Char)
    (og : Option Nat) (ms : List Char) (r : WordleResult)
    (hs : searchScore line = some (og, ms)) (hr : r ∈ lineResults g line) :
    r.guesses = og := by
  unfold lineResults at hr
  rw [hs] at hr
  rcases List.mem_append.mp hr with h | h <;>
    obtain ⟨a, _, rfl⟩ := List.mem_map.mp h <;> rfl

theorem searchScore_all_newline :
    ∀ t : List Char, (∀ x ∈ t, x = '\n') → searchScore t = none := by
  intro t
  induction t with
  | nil => intro _; rfl
  | cons c rest ih =>
    intro hall
    have hstep : scoreAt (c :: rest) = none := by
      rcases rest with _ | ⟨c2, rest2⟩
      · rfl
      · have h2 : c2 = '\n' := hall c2 (by simp)
        subst h2
        rfl
    have h3 : searchScore (c :: rest) = searchScore rest := by
      conv_lhs => unfold searchScore
      rw [hstep]
    rw [h3]
    exact ih (fun x hx => hall x (List.mem_cons_of_mem _ hx))

theorem matchTail_none_all_newline {t : List Char} (hmt : matchTail t = none) :
    ∀ x ∈ t, x = '\n' := by
  unfold matchTail at hmt
  rcases hd : t.dropWhile isPySpace with _ | ⟨c, r⟩
  · rw [hd] at hmt
    rcases hr : t.reverse.dropWhile (fun d => d = '\n') with _ | ⟨c, r⟩
    · intro x hx
      have hall2 := List.dropWhile_eq_nil_iff.mp hr
      have h3 := hall2 x (List.mem_reverse.mpr hx)
      simpa using h3
    · rw [hr] at hmt
      simp at hmt
  · rw [hd] at hmt
    simp at hmt

theorem searchScore_X_head (t : List Char) (res : Option Nat × List Char)
    (h : searchScore ('X' :: '/' :: '6' :: ':' :: t) = some res) :
    res.1 = none := by
  rcases hmt : matchTail t with _ | ms
  · exfalso
    have hall := matchTail_none_all_newline hmt
    have h1 : scoreAt ('X' :: '/' :: '6' :: ':' :: t) = none := by
      have hred : scoreAt ('X' :: '/' :: '6' :: ':' :: t)
          = (matchTail t).map (fun ms => (none, ms)) := by
        simp [scoreAt]
      rw [hred, hmt]
      rfl
    have h2 : scoreAt ('/' :: '6' :: ':' :: t) = none := rfl
    have h3 : scoreAt ('6' :: ':' :: t) = none := rfl
    have h4 : scoreAt (':' :: t) = none := by
      rcases t with _ | ⟨c2, t2⟩
      · rfl
      · have hc2 : c2 = '\n' := hall c2 (by simp)
        subst hc2
        rfl
    have hs1 : searchScore ('X' :: '/' :: '6' :: ':' :: t)
        = searchScore ('/' :: '6' :: ':' :: t) := by
      conv_lhs => unfold searchScore
      rw [h1]
    have hs2 : searchScore ('/' :: '6' :: ':' :: t)
        = searchScore ('6' :: ':' :: t) := by
      conv_lhs => unfold searchScore
      rw [h2]
    have hs3 : searchScore ('6' :: ':' :: t) = searchScore (':' :: t) := by
      conv_lhs => unfold searchScore
      rw [h3]
    have hs4 : searchScore (':' :: t) = searchScore t := by
      conv_lhs => unfold searchScore
      rw [h4]
    have hs5 : searchScore t = none := searchScore_all_newline t hall
    rw [hs1, hs2, hs3, hs4, hs5] at h
    exact Option.noConfusion h
  · have h1 : scoreAt ('X' :: '/' :: '6' :: ':' :: t) = some (none, ms) := by
      have hred : scoreAt ('X' :: '/' :: '6' :: ':' :: t)
          = (matchTail t).map (fun ms => (none, ms)) := by
        simp [scoreAt]
      rw [hred, hmt]
      rfl
    have h2 : searchScore ('X' :: '/' :: '6' :: ':' :: t) = some (none, ms) := by
      conv_lhs => unfold searchScore
      rw [h1]
    rw [h2] at h
    injection h with h3
    rw [← h3]

/-- C8 amended.  The parser treats a body line as a score line exactly when
the line matches the pattern score-token `/6:` attribution-text with the
score token any decimal digit (`\d`, i.e. 0 through 9) or the failure marker
`X` (the source accepts 0, 7, 8 and 9, not only 1-6), and a tail in which
`\s*(.+)` can match; every non-matching line contributes no results and no
error (it is silently ignored); every result of a line carries the line's
captured attempt count, and a leftmost match on the failure marker `X`
captures a null attempt count. -/
theorem score_line_pattern_characterization :
    (∀ line : List Char,
      (searchScore line).isSome = true ↔ specScoreLine tokSrc line) ∧
    (∀ (line : List Char) (g : Nat → Option String),
      searchScore line = none → lineResults g line = []) ∧
    (∀ (line : List Char) (og : Option Nat) (ms : List Char)
        (g : Nat → Option String) (r : WordleResult),
      searchScore line = some (og, ms) → r ∈ lineResults g line →
        r.guesses = og) ∧
    (∀ (t : List Char) (res : Option Nat × List Char),
      searchScore ('X' :: '/' :: '6' :: ':' :: t) = some res → res.1 = none) :=
  ⟨searchScore_isSome_iff,
    fun line g h => lineResults_of_searchScore_none g line h,
    fun line og ms g r hs hr => lineResults_guesses g line og ms r hs hr,
    searchScore_X_head⟩

/-- Witness for the C8 amended theorem at concrete lines. -/
theorem score_line_pattern_witness :
    (searchScore ['3', '/', '6', ':', ' ', 'h', 'i']).isSome = true ∧
      lineResults (fun _ => none) ['a', 'b'] = [] ∧
      (⟨some 5, none, none, false⟩ : WordleResult).guesses = (none : Option Nat) ∧
      ((none : Option Nat), (['a'] : List Char)).1 = none :=
  ⟨(score_line_pattern_characterization.1 ['3', '/', '6', ':', ' ', 'h', 'i']).mpr
      ⟨0, '3', [' ', 'h', 'i'], rfl, rfl,
        [' '], 'h', ['i'], rfl, by decide, by decide⟩,
    score_line_pattern_characterization.2.1 ['a', 'b'] (fun _ => none) rfl,
    score_line_pattern_characterization.2.2.1
      ['X', '/', '6', ':', ' ', '<', '@', '5', '>'] none ['<', '@', '5', '>']
      (fun _ => none) ⟨some 5, none, none, false⟩ rfl (by decide),
    score_line_pattern_characterization.2.2.2 [' ', 'a'] (none, ['a']) rfl⟩

/-- C8 counterexample.  The source's score-token class is `(\d|X)`, any
decimal digit, not only 1 through 6: the line `7/6: ok` is treated as a score
line although its token 7 lies outside 1-6, so "score line exactly when the
token is a digit 1 through 6 or the failure marker" fails on it. -/
theorem score_token_digit_range_counterexample :
    ¬ (((searchScore ['7', '/', '6', ':', ' ', 'o', 'k']).isSome = true) ↔
        specScoreLine tokSpec ['7', '/', '6', ':', ' ', 'o', 'k']) := by
  intro hiff
  have h1 : (searchScore ['7', '/', '6', ':', ' ', 'o', 'k']).isSome = true := rfl
  obtain ⟨n, c, t, hdrop, htok, _⟩ := hiff.mp h1
  have hlen := congrArg List.length hdrop
  simp at hlen
  have hn : n ≤ 3 := by omega
  interval_cases n <;> simp_all
  obtain ⟨hc, ht⟩ := hdrop
  subst hc
  exact absurd htok (by decide)
